import Mathlib

/-!
Verification development for the esp32-langgraph-copilot backend.

The definitions below are shallow embeddings of the Python source:

* `stepB`, `runB`, `translateB` embed `_agui_run_stream` from
  `backend/app/main.py` (Translator B, the AG-UI lifecycle translator),
  including the tool-call correlation helpers
  `_resolve_or_create_tool_call_id` / `_consume_tool_call_id` and the
  synthetic-thinking helpers `_emit_synthetic_thinking_start` /
  `_emit_thinking_end_if_open`.
* `streamGeneratorA` / `emptyStreamGeneratorA` embed the OpenAI-compatible
  streaming generators of `copilotkit_invoke` (Translator A).
* `dedupHits`, `registerDiscovered`, `parsePorts`, `probeMcpJsonrpc`,
  `probeEsp32Rest`, `discoverMcpServers` embed
  `backend/app/network_discovery_toolkit.py`.
* `truncateMessages` embeds `_truncate_messages` from
  `backend/app/react_agent_factory.py`.

Wire-level tool-call identifiers in the source are strings
`tool_{counter}_{uuid4-suffix}`: the counter makes distinct allocations
produce distinct strings, so identifiers are modelled by the counter value
(a `Nat`).  Python dicts keyed by strings are modelled as total functions
with pointwise update, and `collections.deque` FIFO queues as lists with
append at the back and pop at the front, matching the source operations.
-/

/-- Internal agent-event taxonomy produced by `_stream_agent_events`:
`token`, `thinking_start`, `thinking`, `thinking_end`, `tool_start`,
`tool_end`.  The `title`/`tool_call_key` fields may be absent (`None`),
hence `Option`. -/
inductive AgentEvent where
  | token (content : String)
  | thinkingStart (title : Option String)
  | thinking (content : String)
  | thinkingEnd
  | toolStart (toolName : String) (input : String) (toolCallKey : Option String)
  | toolEnd (toolName : String) (output : String) (toolCallKey : Option String)
deriving DecidableEq

/-- Wire-level AG-UI events emitted by `_agui_run_stream`.  The
`synthetic` flag on `thinkingStart` is ghost information recording whether
the event came from `_emit_synthetic_thinking_start` (the source emits the
same JSON event type for both). -/
inductive OutEvent where
  | runStarted
  | textMessageStart
  | thinkingStart (synthetic : Bool) (title : Option String)
  | thinkingTextStart
  | thinkingTextContent (delta : String)
  | thinkingTextEnd
  | thinkingEnd
  | textMessageContent (delta : String)
  | toolCallStart (id : Nat) (toolName : String)
  | toolCallArgs (id : Nat) (delta : String)
  | toolCallEnd (id : Nat)
  | toolCallResult (id : Nat) (toolName : String) (content : String)
  | textMessageEnd
  | runFinished
  | runError (message : String)
deriving DecidableEq

/-- Translator-B local state: `tool_counter`, `tool_call_ids_by_key`,
`pending_tool_call_ids_by_name` (a per-name FIFO), and the three thinking
flags of `_agui_run_stream`. -/
structure BState where
  counter : Nat
  byKey : String → Option Nat
  pending : String → List Nat
  realThinkingSeen : Bool
  syntheticOpen : Bool
  thinkingTextOpen : Bool

/-- Initial translator state (all counters zero, maps empty, flags false). -/
def initB : BState :=
  { counter := 0
    byKey := fun _ => none
    pending := fun _ => []
    realThinkingSeen := false
    syntheticOpen := false
    thinkingTextOpen := false }

/-- Embeds `_new_tool_call_id`: increments `tool_counter` and returns the
fresh identifier. -/
def newToolCallId (s : BState) : Nat × BState :=
  (s.counter + 1, { s with counter := s.counter + 1 })

/-- Embeds the call-site normalization
`str(tool_call_key) if tool_call_key else None`: a falsy key (absent or
empty string) becomes `none`. -/
def normKey : Option String → Option String
  | none => none
  | some k => if k = "" then none else some k

/-- Remove the first occurrence of `id` from a queue; embeds
`deque.remove` wrapped in `try/except ValueError: pass`. -/
def removeFirst : List Nat → Nat → List Nat
  | [], _ => []
  | x :: xs, id => if x = id then xs else x :: removeFirst xs id

/-- Embeds `_resolve_or_create_tool_call_id`: reuse the identifier for a
known correlation key, otherwise allocate a fresh one, record it under the
key (when present) and append it to the per-name FIFO.  Returns
`(identifier, is_new, state)`. -/
def resolveOrCreateToolCallId (s : BState) (toolName : String)
    (key : Option String) : Nat × Bool × BState :=
  match key with
  | some k =>
    match s.byKey k with
    | some id => (id, false, s)
    | none =>
      let id := s.counter + 1
      (id, true,
        { s with
          counter := id
          byKey := fun x => if x = k then some id else s.byKey x
          pending := fun x =>
            if x = toolName then s.pending toolName ++ [id] else s.pending x })
  | none =>
    let id := s.counter + 1
    (id, true,
      { s with
        counter := id
        pending := fun x =>
          if x = toolName then s.pending toolName ++ [id] else s.pending x })

/-- FIFO fallback of `_consume_tool_call_id`: pop the head of the per-name
queue when non-empty, otherwise allocate a fresh identifier. -/
def consumeFifo (s : BState) (toolName : String) : Nat × BState :=
  match s.pending toolName with
  | [] => newToolCallId s
  | id :: rest =>
    (id, { s with pending := fun x => if x = toolName then rest else s.pending x })

/-- Embeds `_consume_tool_call_id`: pop the identifier for a known
correlation key (also removing it from the per-name FIFO), else fall back
to FIFO order by name, else allocate a fresh identifier. -/
def consumeToolCallId (s : BState) (toolName : String)
    (key : Option String) : Nat × BState :=
  match key with
  | some k =>
    match s.byKey k with
    | some id =>
      (id,
        { s with
          byKey := fun x => if x = k then none else s.byKey x
          pending := fun x =>
            if x = toolName then removeFirst (s.pending toolName) id
            else s.pending x })
    | none => consumeFifo s toolName
  | none => consumeFifo s toolName

/-- Embeds `_emit_thinking_end_if_open`: close the thinking text span if
open, then close the synthetic thinking span if open. -/
def emitThinkingEndIfOpen (s : BState) : List OutEvent × BState :=
  let p1 : List OutEvent × BState :=
    if s.thinkingTextOpen then
      ([OutEvent.thinkingTextEnd], { s with thinkingTextOpen := false })
    else ([], s)
  let p2 : List OutEvent × BState :=
    if p1.2.syntheticOpen then
      ([OutEvent.thinkingEnd], { p1.2 with syntheticOpen := false })
    else ([], p1.2)
  (p1.1 ++ p2.1, p2.2)

/-- Embeds `_emit_synthetic_thinking_start`: open the synthetic thinking
span unless it is already open or a real `thinking_start` has been seen. -/
def emitSyntheticThinkingStart (s : BState) : List OutEvent × BState :=
  if s.syntheticOpen || s.realThinkingSeen then ([], s)
  else
    ([OutEvent.thinkingStart true (some "Reasoning"),
      OutEvent.thinkingTextStart,
      OutEvent.thinkingTextContent
        "Analyzing your request and planning tool usage..."],
      { s with syntheticOpen := true, thinkingTextOpen := true })

/-- The guard `if thinking_text_open or synthetic_thinking_open:` followed
by `_emit_thinking_end_if_open`, used before token and tool events. -/
def closeIfOpen (s : BState) : List OutEvent × BState :=
  if s.thinkingTextOpen || s.syntheticOpen then emitThinkingEndIfOpen s
  else ([], s)

/-- The guard `if synthetic_thinking_open:` followed by
`_emit_thinking_end_if_open`, used in the thinking branches. -/
def closeIfSynthetic (s : BState) : List OutEvent × BState :=
  if s.syntheticOpen then emitThinkingEndIfOpen s else ([], s)

/-- One iteration of the event loop of `_agui_run_stream`: translate a
single internal event, returning the emitted wire events and the new
state. -/
def stepB (s : BState) : AgentEvent → List OutEvent × BState
  | AgentEvent.thinkingStart title =>
    let s0 := { s with realThinkingSeen := true }
    let p1 := closeIfSynthetic s0
    if p1.2.thinkingTextOpen then
      (p1.1 ++ [OutEvent.thinkingStart false title], p1.2)
    else
      (p1.1 ++ [OutEvent.thinkingStart false title, OutEvent.thinkingTextStart],
        { p1.2 with thinkingTextOpen := true })
  | AgentEvent.thinking content =>
    let s0 := { s with realThinkingSeen := true }
    let p1 := closeIfSynthetic s0
    if content = "" then (p1.1, p1.2)
    else if p1.2.thinkingTextOpen then
      (p1.1 ++ [OutEvent.thinkingTextContent content], p1.2)
    else
      (p1.1 ++ [OutEvent.thinkingTextStart, OutEvent.thinkingTextContent content],
        { p1.2 with thinkingTextOpen := true })
  | AgentEvent.thinkingEnd =>
    let s0 := { s with realThinkingSeen := true }
    let p1 := closeIfSynthetic s0
    let p2 :=
      if p1.2.thinkingTextOpen then
        ([OutEvent.thinkingTextEnd], { p1.2 with thinkingTextOpen := false })
      else ([], p1.2)
    (p1.1 ++ p2.1 ++ [OutEvent.thinkingEnd], p2.2)
  | AgentEvent.token content =>
    let p1 := closeIfOpen s
    if content = "" then (p1.1, p1.2)
    else (p1.1 ++ [OutEvent.textMessageContent content], p1.2)
  | AgentEvent.toolStart toolName input key =>
    let p1 := closeIfOpen s
    let r := resolveOrCreateToolCallId p1.2 toolName (normKey key)
    let startEvents :=
      if r.2.1 then [OutEvent.toolCallStart r.1 toolName] else []
    (p1.1 ++ startEvents ++
      [OutEvent.toolCallArgs r.1 input, OutEvent.toolCallEnd r.1], r.2.2)
  | AgentEvent.toolEnd toolName output key =>
    let p1 := closeIfOpen s
    let r := consumeToolCallId p1.2 toolName (normKey key)
    (p1.1 ++
      [OutEvent.toolCallResult r.1 toolName ("[" ++ toolName ++ "] " ++ output)],
      r.2)

/-- Fold `stepB` over an event list, concatenating the emitted events. -/
def runB (s : BState) : List AgentEvent → List OutEvent × BState
  | [] => ([], s)
  | e :: es =>
    let p := stepB s e
    let q := runB p.2 es
    (p.1 ++ q.1, q.2)

/-- Full output of `_agui_run_stream` on an upstream event sequence.
`err = some msg` models the upstream async iterator raising an exception
with text `msg` after yielding `evs`; the `try` block short-circuits to a
single `RUN_ERROR` event.  `err = none` is the normal path: close any open
thinking span, then `TEXT_MESSAGE_END` and `RUN_FINISHED`. -/
def translateB (evs : List AgentEvent) (err : Option String) : List OutEvent :=
  let p0 := emitSyntheticThinkingStart initB
  let p1 := runB p0.2 evs
  match err with
  | some msg =>
    [OutEvent.runStarted, OutEvent.textMessageStart] ++ p0.1 ++ p1.1 ++
      [OutEvent.runError msg]
  | none =>
    let p2 := closeIfOpen p1.2
    [OutEvent.runStarted, OutEvent.textMessageStart] ++ p0.1 ++ p1.1 ++ p2.1 ++
      [OutEvent.textMessageEnd, OutEvent.runFinished]

/-- Identifiers carried by `TOOL_CALL_ARGS` events, in order. -/
def argsIds (l : List OutEvent) : List Nat :=
  l.filterMap fun e =>
    match e with
    | OutEvent.toolCallArgs id _ => some id
    | _ => none

/-- Identifiers carried by `TOOL_CALL_RESULT` events, in order. -/
def resultIds (l : List OutEvent) : List Nat :=
  l.filterMap fun e =>
    match e with
    | OutEvent.toolCallResult id _ _ => some id
    | _ => none

/-- Chunks of the OpenAI-compatible SSE stream (Translator A): the
role-announcement chunk, one content-delta chunk per token, the stop
chunk, the literal `[DONE]` sentinel, and the error-shaped chunk. -/
inductive ChunkA where
  | roleChunk
  | contentChunk (delta : String)
  | stopChunk
  | doneMark
  | errorChunk (message : String)
deriving DecidableEq

/-- The event loop of `stream_generator` in `copilotkit_invoke`: skip every
event whose type is not `token`, emit one content-delta chunk per token
(the source only checks `isinstance(token, str)`, so empty strings are
emitted too). -/
def streamLoopA : List AgentEvent → List ChunkA
  | [] => []
  | AgentEvent.token c :: es => ChunkA.contentChunk c :: streamLoopA es
  | _ :: es => streamLoopA es

/-- Embeds `stream_generator` (non-error path): role chunk, the loop over
internal events, stop chunk, `[DONE]`. -/
def streamGeneratorA (evs : List AgentEvent) : List ChunkA :=
  ChunkA.roleChunk :: (streamLoopA evs ++ [ChunkA.stopChunk, ChunkA.doneMark])

/-- Embeds `empty_stream_generator` (no user message): role chunk, stop
chunk, `[DONE]`. -/
def emptyStreamGeneratorA : List ChunkA :=
  [ChunkA.roleChunk, ChunkA.stopChunk, ChunkA.doneMark]

/-- Content of a `token` event, `none` for every other event kind. -/
def tokenContent : AgentEvent → Option String
  | AgentEvent.token c => some c
  | _ => none

/-- Message roles relevant to `_truncate_messages` (only
`isinstance(m, SystemMessage)` is inspected by the source). -/
inductive MsgRole where
  | system
  | user
  | assistant
  | tool
deriving DecidableEq

/-- A conversation message: role plus content. -/
structure Msg where
  role : MsgRole
  content : String
deriving DecidableEq

/-- Whether a message is a `SystemMessage`. -/
def isSystemMsg (m : Msg) : Bool := m.role = MsgRole.system

/-- Python `l[-k:]` for `k` a non-negative int: the whole list when
`k = 0`, otherwise the last `k` elements. -/
def takeLastPy {α : Type} (l : List α) (k : Nat) : List α :=
  if k = 0 then l else l.drop (l.length - k)

/-- Embeds `_truncate_messages` from `react_agent_factory.py`. -/
def truncateMessages (messages : List Msg) (maxMessages : Nat)
    (preserveSystemMessages : Bool) : List Msg :=
  if messages.length ≤ maxMessages then messages
  else if !preserveSystemMessages then takeLastPy messages maxMessages
  else
    let systemMessages := messages.filter isSystemMsg
    let nonSystemMessages := messages.filter fun m => !isSystemMsg m
    if maxMessages ≤ systemMessages.length then
      takeLastPy systemMessages maxMessages
    else
      systemMessages ++
        takeLastPy nonSystemMessages (maxMessages - systemMessages.length)

/-- A positive discovery hit as built by the probe helpers of
`network_discovery_toolkit.py` (the `details` sub-dict is omitted: nothing
downstream of the probes reads it). -/
structure Hit where
  transport : String
  base_url : String
  mcp_path : String
  timeout_seconds : Nat
  latency_ms : Nat
deriving DecidableEq

/-- Deduplication key `(base_url, transport)`. -/
def dedupKey (h : Hit) : String × String := (h.base_url, h.transport)

/-- One iteration of the dedup loop in `discover_mcp_servers`: a Python
dict keyed by `(base_url, transport)` holding, per key, the entry with the
strictly lowest latency seen so far; insertion order is preserved and an
update keeps the original position. -/
def dedupStep : List Hit → Hit → List Hit
  | [], h => [h]
  | e :: es, h =>
    if dedupKey e = dedupKey h then
      if h.latency_ms < e.latency_ms then h :: es else e :: es
    else e :: dedupStep es h

/-- The dedup pass of `discover_mcp_servers`: `list(dedup.values())`. -/
def dedupHits (hits : List Hit) : List Hit := hits.foldl dedupStep []

/-- Registered server config (`MCPServerConfig` in `esp_mcp_toolkit.py`). -/
structure SrvConfig where
  name : String
  base_url : String
  transport : String
  mcp_path : String
  timeout_seconds : Nat
  auth_token : Option String
deriving DecidableEq

/-- Embeds `ESPMCPToolkit.register_server`: dict upsert by name, keeping
the position of an existing key and appending a new one. -/
def registerServer (rs : List SrvConfig) (c : SrvConfig) : List SrvConfig :=
  if rs.any fun e => e.name = c.name then
    rs.map fun e => if e.name = c.name then c else e
  else rs ++ [c]

/-- Python `str.strip()` at the character-list level (the built-in
`String.trim` is not structurally recursive, so it does not reduce in the
kernel). -/
def stripChars (cs : List Char) : List Char :=
  ((cs.dropWhile Char.isWhitespace).reverse.dropWhile Char.isWhitespace).reverse

/-- Python `str.strip()` on a string. -/
def pyStrip (s : String) : String := String.mk (stripChars s.data)

/-- Python `s.split('//')`: left-to-right, non-overlapping. -/
def splitOnSlashes : List Char → List Char → List (List Char)
  | [], acc => [acc.reverse]
  | '/' :: '/' :: rest, acc => acc.reverse :: splitOnSlashes rest []
  | c :: rest, acc => splitOnSlashes rest (c :: acc)

/-- Sanitized host:port part of a generated name:
`base_url.split('//')[-1].replace(':', '-')`. -/
def sanitizeHostPort (u : String) : String :=
  String.mk (((splitOnSlashes u.data []).getLastD []).map
    fun c => if c = ':' then '-' else c)

/-- Name stem for a discovered hit:
`f"{name_prefix}-{transport}-{sanitized}"` (with the stripped fields). -/
def discoveredStem (namePfx : String) (h : Hit) : String :=
  namePfx ++ "-" ++ pyStrip h.transport ++ "-" ++
    sanitizeHostPort (pyStrip h.base_url)

/-- The collision loop of `_register_discovered`: try `cand`, then
`stem-idx`, `stem-(idx+1)`, ....  The fuel bounds the while loop; it is
instantiated with more candidates than there are existing names, so the
fuel never actually runs out. -/
def genNameGo (names : List String) (stem : String) :
    Nat → String → Nat → String
  | 0, cand, _ => cand
  | fuel + 1, cand, idx =>
    if names.contains cand then
      genNameGo names stem fuel (stem ++ "-" ++ toString idx) (idx + 1)
    else cand

/-- Unique-name generation of `_register_discovered`: `stem`, with a
numeric suffix starting at 2 on collision. -/
def genName (names : List String) (stem : String) : String :=
  genNameGo names stem (names.length + 1) stem 2

/-- Loop state of `_register_discovered`: the `(base_url, transport)` key
set, the name set, the registry, and the saved counter. -/
structure RegState where
  keys : List (String × String)
  names : List String
  reg : List SrvConfig
  saved : Nat

/-- One iteration of the loop of `_register_discovered`. -/
def regStep (namePfx : String) (st : RegState) (item : Hit) : RegState :=
  let b := pyStrip item.base_url
  let t := pyStrip item.transport
  if b = "" || t = "" then st
  else if st.keys.contains (b, t) then st
  else
    let stem := namePfx ++ "-" ++ t ++ "-" ++ sanitizeHostPort b
    let name := genName st.names stem
    { keys := st.keys ++ [(b, t)]
      names := st.names ++ [name]
      reg := registerServer st.reg
        { name := name
          base_url := b
          transport := t
          mcp_path := item.mcp_path
          timeout_seconds := item.timeout_seconds
          auth_token := none }
      saved := st.saved + 1 }

/-- Embeds `_register_discovered`: seed the key/name sets from the current
registry, then fold the loop over the discovered hits.  Returns the final
registry and the saved count. -/
def registerDiscovered (reg : List SrvConfig) (discovered : List Hit)
    (namePfx : String) : List SrvConfig × Nat :=
  let st0 : RegState :=
    { keys := reg.map fun c => (c.base_url, c.transport)
      names := reg.map fun c => c.name
      reg := reg
      saved := 0 }
  let stf := discovered.foldl (regStep namePfx) st0
  (stf.reg, stf.saved)

/-- Minimal JSON value model for the bodies the discovery probes inspect. -/
inductive JsonV where
  | null
  | bool (b : Bool)
  | num (n : Int)
  | str (s : String)
  | arr (xs : List JsonV)
  | obj (fields : List (String × JsonV))

/-- Python `dict.get` on a parsed JSON object. -/
def jsonGet : List (String × JsonV) → String → Option JsonV
  | [], _ => none
  | (k, v) :: fs, key => if k = key then some v else jsonGet fs key

/-- Python equality of a looked-up JSON value with the string `"2.0"`
(`data.get("jsonrpc") == "2.0"`): only a JSON string compares equal. -/
def isJsonStr (v : Option JsonV) (s : String) : Bool :=
  match v with
  | some (JsonV.str x) => x = s
  | _ => false

/-- Outcome of one HTTP request inside a probe: an exception (connection
error, timeout, ...) or a response with a status code and a body;
`body = none` models `response.json()` raising on a malformed body. -/
inductive HttpOutcome where
  | exn
  | resp (status : Nat) (body : Option JsonV)

/-- `_base_url`: omit the `:80` suffix for port 80. -/
def mkBaseUrl (host : String) (port : Int) : String :=
  if port = 80 then "http://" ++ host
  else "http://" ++ host ++ ":" ++ toString port

/-- Embeds `_probe_mcp_jsonrpc`: a positive hit iff the request neither
raised nor answered 5xx, the body parsed to a dict, and its `jsonrpc`
field equals `"2.0"`.  Elapsed time is abstracted as `latency`. -/
def probeMcpJsonrpc (outcome : HttpOutcome) (host : String) (port : Int)
    (timeoutS : Nat) (latency : Nat) : Option Hit :=
  match outcome with
  | HttpOutcome.exn => none
  | HttpOutcome.resp status body =>
    if 500 ≤ status then none
    else
      match body with
      | none => none
      | some (JsonV.obj fields) =>
        if isJsonStr (jsonGet fields "jsonrpc") "2.0" then
          some
            { transport := "mcp_jsonrpc"
              base_url := mkBaseUrl host port
              mcp_path := "/mcp"
              timeout_seconds := timeoutS
              latency_ms := latency }
        else none
      | some _ => none

/-- Key allowlist of `_probe_esp32_rest`. -/
def knownEspKeys : List String :=
  ["soil", "dht", "relays", "modules", "status", "firmware", "uptime"]

/-- Embeds `_probe_esp32_rest`: a positive hit iff the request neither
raised nor answered non-200, the body parsed to a dict whose key set is
not exactly `{"detail"}` and intersects the allowlist. -/
def probeEsp32Rest (outcome : HttpOutcome) (host : String) (port : Int)
    (timeoutS : Nat) (latency : Nat) : Option Hit :=
  match outcome with
  | HttpOutcome.exn => none
  | HttpOutcome.resp status body =>
    if status ≠ 200 then none
    else
      match body with
      | none => none
      | some (JsonV.obj fields) =>
        let keys := fields.map fun f => f.1
        if keys ≠ [] && keys.all fun k => k = "detail" then none
        else if keys.any fun k => knownEspKeys.contains k then
          some
            { transport := "esp32_rest"
              base_url := mkBaseUrl host port
              mcp_path := "/mcp"
              timeout_seconds := timeoutS
              latency_ms := latency }
        else none
      | some _ => none

/-- Python `s.split(',')` at the character-list level. -/
def splitOnComma : List Char → List Char → List (List Char)
  | [], acc => [acc.reverse]
  | ',' :: rest, acc => acc.reverse :: splitOnComma rest []
  | c :: rest, acc => splitOnComma rest (c :: acc)

/-- Decimal-digit accumulator for `int()`. -/
def digitsToNatGo : List Char → Nat → Option Nat
  | [], acc => some acc
  | c :: rest, acc =>
    if c.isDigit then digitsToNatGo rest (acc * 10 + (c.toNat - '0'.toNat))
    else none

/-- Python `int()` on a stripped token: optional sign followed by at least
one decimal digit, else a `ValueError`. -/
def pyInt? (cs : List Char) : Option Int :=
  match cs with
  | [] => none
  | '-' :: rest =>
    match rest with
    | [] => none
    | _ => (digitsToNatGo rest 0).map fun n => -(n : Int)
  | '+' :: rest =>
    match rest with
    | [] => none
    | _ => (digitsToNatGo rest 0).map fun n => (n : Int)
  | _ => (digitsToNatGo cs 0).map fun n => (n : Int)

/-- Token loop of `_parse_ports`: skip blank tokens, fail like `int()` on
a non-numeric token, keep values in `1..65535`. -/
def parsePortsTokens : List (List Char) → Except String (List Int)
  | [] => Except.ok []
  | t :: ts =>
    let tok := stripChars t
    if tok = [] then parsePortsTokens ts
    else
      match pyInt? tok with
      | none => Except.error ("invalid literal for int: " ++ String.mk tok)
      | some p =>
        match parsePortsTokens ts with
        | Except.error e => Except.error e
        | Except.ok rest =>
          Except.ok (if 1 ≤ p ∧ p ≤ 65535 then p :: rest else rest)

/-- Embeds `_parse_ports`: split on commas, parse, then
`sorted(set(values))`. -/
def parsePorts (portsCsv : String) : Except String (List Int) :=
  match parsePortsTokens (splitOnComma portsCsv.data []) with
  | Except.error e => Except.error e
  | Except.ok values =>
    Except.ok (List.insertionSort (fun a b => a ≤ b) values.dedup)

/-- Scan result of `discover_mcp_servers` (timing fields omitted: they
are wall-clock readings). -/
structure ScanResult where
  hosts_scanned : Nat
  ports : List Int
  found_count : Nat
  saved_count : Nat
  servers : List Hit

/-- Embeds `discover_mcp_servers`.  The subnet host enumeration is
abstracted as the input list `hostsAll` (the `network.hosts()` sequence)
and network effects as the probe oracles `mcpO`/`espO`, which give each
probe of a `(host, port)` pair its HTTP outcome and observed latency.
Validation errors (`ValueError` in the source) are the `Except.error`
branch; note the port list is validated before `max_hosts`, and both
before any host is probed. -/
def discoverMcpServers (hostsAll : List String) (portsCsv : String)
    (timeoutS : Nat) (maxHosts : Int) (save : Bool) (namePfx : String)
    (reg : List SrvConfig)
    (mcpO espO : String → Int → HttpOutcome × Nat) :
    Except String (ScanResult × List SrvConfig) :=
  match parsePorts portsCsv with
  | Except.error e => Except.error e
  | Except.ok ports =>
    if ports = [] then Except.error "No valid ports to scan"
    else if maxHosts ≤ 0 then Except.error "max_hosts must be > 0"
    else
      let hosts := hostsAll.take maxHosts.toNat
      let discovered := hosts.flatMap fun h =>
        ports.flatMap fun p =>
          (probeMcpJsonrpc (mcpO h p).1 h p timeoutS (mcpO h p).2).toList ++
            (probeEsp32Rest (espO h p).1 h p timeoutS (espO h p).2).toList
      let finalDiscovered := dedupHits discovered
      let savedPair :=
        if save then registerDiscovered reg finalDiscovered namePfx
        else (reg, 0)
      Except.ok
        ({ hosts_scanned := hosts.length
           ports := ports
           found_count := finalDiscovered.length
           saved_count := savedPair.2
           servers := finalDiscovered }, savedPair.1)

theorem streamLoopA_eq_filterMap (evs : List AgentEvent) :
    streamLoopA evs = (evs.filterMap tokenContent).map ChunkA.contentChunk := by
  induction evs with
  | nil => rfl
  | cons e es ih => cases e <;> simp [streamLoopA, tokenContent, ih]

/-- C4: Translator A (the OpenAI streaming path) emits exactly one
role-announcement chunk, then one content-delta chunk per `token` event
and nothing for non-token events, then one stop chunk, then the `[DONE]`
sentinel; the same shape holds with zero token events, and the
empty-message generator emits exactly the zero-token shape. -/
theorem C4_translatorA_chunk_shape :
    (∀ evs : List AgentEvent,
      streamGeneratorA evs =
        ChunkA.roleChunk ::
          ((evs.filterMap tokenContent).map ChunkA.contentChunk ++
            [ChunkA.stopChunk, ChunkA.doneMark]))
    ∧ emptyStreamGeneratorA =
        [ChunkA.roleChunk, ChunkA.stopChunk, ChunkA.doneMark]
    ∧ ∀ evs : List AgentEvent, (∀ e ∈ evs, tokenContent e = none) →
        streamGeneratorA evs =
          [ChunkA.roleChunk, ChunkA.stopChunk, ChunkA.doneMark] := by
  refine ⟨fun evs => ?_, rfl, fun evs h => ?_⟩
  · simp [streamGeneratorA, streamLoopA_eq_filterMap]
  · simp [streamGeneratorA, streamLoopA_eq_filterMap,
      List.filterMap_eq_nil_iff.mpr h]

theorem C4_translatorA_chunk_shape_witness :
    streamGeneratorA
        [AgentEvent.thinkingStart none, AgentEvent.thinkingEnd,
         AgentEvent.toolStart "t" "i" none, AgentEvent.toolEnd "t" "o" none] =
      [ChunkA.roleChunk, ChunkA.stopChunk, ChunkA.doneMark] :=
  C4_translatorA_chunk_shape.2.2 _ (by decide)

theorem takeLastPy_length {α : Type} (l : List α) (k : Nat) :
    (takeLastPy l k).length = if k = 0 then l.length else l.length - (l.length - k) := by
  simp only [takeLastPy]
  split <;> simp

theorem takeLastPy_subset {α : Type} (l : List α) (k : Nat) :
    takeLastPy l k ⊆ l := by
  simp only [takeLastPy]
  split
  · exact fun a h => h
  · exact List.drop_subset _ l

/-- C9: for every message list and `max_messages ≥ 1`, truncation returns
at most `max_messages` messages, returns the input unchanged when it
already fits, and with `preserve_system_messages` set keeps every system
message whenever there are fewer system messages than `max_messages`. -/
theorem C9_truncate_messages_contract (msgs : List Msg) (m : Nat) (p : Bool)
    (hm : 1 ≤ m) :
    (truncateMessages msgs m p).length ≤ m
    ∧ (msgs.length ≤ m → truncateMessages msgs m p = msgs)
    ∧ ((msgs.filter isSystemMsg).length < m →
        (truncateMessages msgs m true).filter isSystemMsg =
          msgs.filter isSystemMsg) := by
  have hm0 : m ≠ 0 := by omega
  refine ⟨?_, ?_, ?_⟩
  · by_cases h1 : msgs.length ≤ m
    · simp [truncateMessages, h1]
    · cases p with
      | false =>
        simp [truncateMessages, h1, takeLastPy_length, hm0]
        omega
      | true =>
        by_cases h2 : m ≤ (msgs.filter isSystemMsg).length
        · simp only [truncateMessages, h1, h2, takeLastPy_length,
            if_false, if_true, Bool.not_true, Bool.false_eq_true, reduceIte]
          simp [hm0]
          omega
        · have h3 : m - (msgs.filter isSystemMsg).length ≠ 0 := by omega
          simp [truncateMessages, h1, h2, takeLastPy_length, h3]
          omega
  · intro h
    simp [truncateMessages, h]
  · intro hsys
    by_cases hlen : msgs.length ≤ m
    · simp [truncateMessages, hlen]
    · have hns : ¬ m ≤ (msgs.filter isSystemMsg).length := by omega
      simp only [truncateMessages, hlen, if_false, Bool.not_true, hns,
        Bool.false_eq_true, reduceIte]
      rw [List.filter_append]
      have h1 : (msgs.filter isSystemMsg).filter isSystemMsg =
          msgs.filter isSystemMsg := by
        simp [List.filter_filter]
      have h2 : (takeLastPy (msgs.filter fun x => !isSystemMsg x)
          (m - (msgs.filter isSystemMsg).length)).filter isSystemMsg = [] := by
        rw [List.filter_eq_nil_iff]
        intro a ha
        have hmem := takeLastPy_subset (msgs.filter fun x => !isSystemMsg x) _ ha
        have := List.of_mem_filter hmem
        simpa using this
      rw [h1, h2, List.append_nil]

theorem C9_truncate_messages_contract_witness :
    (truncateMessages
        [⟨MsgRole.system, "s"⟩, ⟨MsgRole.user, "u"⟩, ⟨MsgRole.assistant, "a"⟩,
         ⟨MsgRole.user, "v"⟩] 2 true).length ≤ 2 :=
  (C9_truncate_messages_contract
    [⟨MsgRole.system, "s"⟩, ⟨MsgRole.user, "u"⟩, ⟨MsgRole.assistant, "a"⟩,
     ⟨MsgRole.user, "v"⟩] 2 true (by decide)).1

theorem argsIds_append (a b : List OutEvent) :
    argsIds (a ++ b) = argsIds a ++ argsIds b := by
  simp [argsIds]

theorem resultIds_append (a b : List OutEvent) :
    resultIds (a ++ b) = resultIds a ++ resultIds b := by
  simp [resultIds]

theorem closeIfOpen_corr (s : BState) :
    (closeIfOpen s).2.counter = s.counter ∧
      (closeIfOpen s).2.byKey = s.byKey ∧
      (closeIfOpen s).2.pending = s.pending := by
  cases hT : s.thinkingTextOpen <;> cases hS : s.syntheticOpen <;>
    simp [closeIfOpen, emitThinkingEndIfOpen, hT, hS]

theorem closeIfSynthetic_corr (s : BState) :
    (closeIfSynthetic s).2.counter = s.counter ∧
      (closeIfSynthetic s).2.byKey = s.byKey ∧
      (closeIfSynthetic s).2.pending = s.pending := by
  cases hT : s.thinkingTextOpen <;> cases hS : s.syntheticOpen <;>
    simp [closeIfSynthetic, emitThinkingEndIfOpen, hT, hS]

theorem closeIfOpen_argsIds (s : BState) : argsIds (closeIfOpen s).1 = [] := by
  cases hT : s.thinkingTextOpen <;> cases hS : s.syntheticOpen <;>
    simp [closeIfOpen, emitThinkingEndIfOpen, hT, hS, argsIds]

theorem closeIfOpen_resultIds (s : BState) : resultIds (closeIfOpen s).1 = [] := by
  cases hT : s.thinkingTextOpen <;> cases hS : s.syntheticOpen <;>
    simp [closeIfOpen, emitThinkingEndIfOpen, hT, hS, resultIds]

theorem stepB_toolStart_state (s : BState) (n i : String) (key : Option String) :
    (stepB s (AgentEvent.toolStart n i key)).2 =
      (resolveOrCreateToolCallId (closeIfOpen s).2 n (normKey key)).2.2 := rfl

theorem stepB_toolEnd_state (s : BState) (n o : String) (key : Option String) :
    (stepB s (AgentEvent.toolEnd n o key)).2 =
      (consumeToolCallId (closeIfOpen s).2 n (normKey key)).2 := rfl

theorem stepB_toolStart_argsIds (s : BState) (n i : String) (key : Option String) :
    argsIds (stepB s (AgentEvent.toolStart n i key)).1 =
      [(resolveOrCreateToolCallId (closeIfOpen s).2 n (normKey key)).1] := by
  show argsIds ((closeIfOpen s).1 ++ _ ++ _) = _
  rw [argsIds_append, argsIds_append, closeIfOpen_argsIds]
  cases h : (resolveOrCreateToolCallId (closeIfOpen s).2 n (normKey key)).2.1 <;>
    simp [h, argsIds]

theorem stepB_toolEnd_resultIds (s : BState) (n o : String) (key : Option String) :
    resultIds (stepB s (AgentEvent.toolEnd n o key)).1 =
      [(consumeToolCallId (closeIfOpen s).2 n (normKey key)).1] := by
  show resultIds ((closeIfOpen s).1 ++ _) = _
  rw [resultIds_append, closeIfOpen_resultIds]
  simp [resultIds]

theorem roc_byKey_self (s : BState) (n k : String) :
    ((resolveOrCreateToolCallId s n (some k)).2.2).byKey k =
      some (resolveOrCreateToolCallId s n (some k)).1 := by
  cases h : s.byKey k <;> simp [resolveOrCreateToolCallId, h]

theorem roc_byKey_other (s : BState) (n : String) (key : Option String)
    (k : String) (hne : key ≠ some k) :
    ((resolveOrCreateToolCallId s n key).2.2).byKey k = s.byKey k := by
  cases key with
  | none => simp [resolveOrCreateToolCallId]
  | some k2 =>
    have hk2 : k ≠ k2 := fun h => hne (by rw [h])
    cases h : s.byKey k2 <;> simp [resolveOrCreateToolCallId, h, hk2]

theorem consumeFifo_byKey (s : BState) (n : String) :
    ((consumeFifo s n).2).byKey = s.byKey := by
  cases h : s.pending n <;> simp [consumeFifo, newToolCallId, h]

theorem consume_byKey_other (s : BState) (n : String) (key : Option String)
    (k : String) (hne : key ≠ some k) :
    ((consumeToolCallId s n key).2).byKey k = s.byKey k := by
  cases key with
  | none => simp [consumeToolCallId, consumeFifo_byKey]
  | some k2 =>
    have hk2 : k ≠ k2 := fun h => hne (by rw [h])
    cases h : s.byKey k2 <;>
      simp [consumeToolCallId, h, hk2, consumeFifo_byKey]

/-- Events that are not a `tool_end` carrying (raw) correlation key `k`. -/
def notEndKeyed (k : String) : AgentEvent → Bool
  | AgentEvent.toolEnd _ _ (some k2) => !(k2 = k)
  | _ => true

/-- No `tool_end` with correlation key `k` occurs in the list. -/
def noToolEndKeyed (k : String) (evs : List AgentEvent) : Bool :=
  evs.all (notEndKeyed k)

theorem normKey_ne_some (key : Option String) (k : String)
    (hne : key ≠ some k) : normKey key ≠ some k := by
  cases key with
  | none => simp [normKey]
  | some k2 =>
    by_cases h2 : k2 = ""
    · simp [normKey, h2]
    · simp [normKey, h2]
      intro h
      exact hne (by rw [h])

theorem stepB_byKey_preserved (s : BState) (e : AgentEvent) (k : String)
    (id : Nat) (he : notEndKeyed k e = true)
    (h : s.byKey k = some id) : ((stepB s e).2).byKey k = some id := by
  cases e with
  | token c =>
    have hc := (closeIfOpen_corr s).2.1
    by_cases hz : c = "" <;> simp [stepB, hz, hc, h]
  | thinkingStart t =>
    have hc := (closeIfSynthetic_corr { s with realThinkingSeen := true }).2.1
    by_cases hb :
        (closeIfSynthetic { s with realThinkingSeen := true }).2.thinkingTextOpen <;>
      simp [stepB, hb, hc, h]
  | thinking c =>
    have hc := (closeIfSynthetic_corr { s with realThinkingSeen := true }).2.1
    by_cases hz : c = ""
    · simp [stepB, hz, hc, h]
    · by_cases hb :
          (closeIfSynthetic { s with realThinkingSeen := true }).2.thinkingTextOpen <;>
        simp [stepB, hz, hb, hc, h]
  | thinkingEnd =>
    have hc := (closeIfSynthetic_corr { s with realThinkingSeen := true }).2.1
    by_cases hb :
        (closeIfSynthetic { s with realThinkingSeen := true }).2.thinkingTextOpen <;>
      simp [stepB, hb, hc, h]
  | toolStart n i key =>
    rw [stepB_toolStart_state]
    have hc := (closeIfOpen_corr s).2.1
    by_cases hkey : normKey key = some k
    · rw [hkey]
      have hfound : ((closeIfOpen s).2).byKey k = some id := by rw [hc]; exact h
      simp [resolveOrCreateToolCallId, hfound]
    · rw [roc_byKey_other _ _ _ _ hkey, hc]
      exact h
  | toolEnd n o key =>
    rw [stepB_toolEnd_state]
    have hc := (closeIfOpen_corr s).2.1
    have hraw : key ≠ some k := by
      intro hx
      rw [hx] at he
      simp [notEndKeyed] at he
    rw [consume_byKey_other _ _ _ _ (normKey_ne_some key k hraw), hc]
    exact h

theorem runB_byKey_preserved (evs : List AgentEvent) (s : BState) (k : String)
    (id : Nat) (he : noToolEndKeyed k evs = true)
    (h : s.byKey k = some id) : ((runB s evs).2).byKey k = some id := by
  induction evs generalizing s with
  | nil => exact h
  | cons e es ih =>
    simp only [noToolEndKeyed, List.all_cons, Bool.and_eq_true] at he
    exact ih (stepB s e).2
      (by simp [noToolEndKeyed, he.2])
      (stepB_byKey_preserved s e k id he.1 h)

/-- C1: in Translator B, for every tool_start with a correlation key, the
identifier later resolved by a tool_end with the same key equals the one
assigned at the start, whatever events (with no tool_end for that key)
come in between; and the interleaving start A, start B, end B, end A
yields two distinct identifiers, each paired with its own start. -/
theorem C1_keyed_tool_call_id_pairing :
    (∀ (s : BState) (mid : List AgentEvent) (n1 n2 i o k : String),
      k ≠ "" → noToolEndKeyed k mid = true →
      ∃ id,
        argsIds (stepB s (AgentEvent.toolStart n1 i (some k))).1 = [id] ∧
        resultIds
          (stepB (runB (stepB s (AgentEvent.toolStart n1 i (some k))).2 mid).2
            (AgentEvent.toolEnd n2 o (some k))).1 = [id])
    ∧ argsIds (translateB
        [AgentEvent.toolStart "t" "i1" (some "A"),
         AgentEvent.toolStart "t" "i2" (some "B"),
         AgentEvent.toolEnd "t" "o2" (some "B"),
         AgentEvent.toolEnd "t" "o1" (some "A")] none) = [1, 2]
    ∧ resultIds (translateB
        [AgentEvent.toolStart "t" "i1" (some "A"),
         AgentEvent.toolStart "t" "i2" (some "B"),
         AgentEvent.toolEnd "t" "o2" (some "B"),
         AgentEvent.toolEnd "t" "o1" (some "A")] none) = [2, 1] := by
  refine ⟨?_, by decide, by decide⟩
  intro s mid n1 n2 i o k hk hmid
  have hnk : normKey (some k) = some k := by simp [normKey, hk]
  refine ⟨(resolveOrCreateToolCallId (closeIfOpen s).2 n1 (some k)).1, ?_, ?_⟩
  · rw [stepB_toolStart_argsIds, hnk]
  · have h1 : ((stepB s (AgentEvent.toolStart n1 i (some k))).2).byKey k =
        some (resolveOrCreateToolCallId (closeIfOpen s).2 n1 (some k)).1 := by
      rw [stepB_toolStart_state, hnk]
      exact roc_byKey_self _ _ _
    have h2 := runB_byKey_preserved mid _ k _ hmid h1
    have h3 : ((closeIfOpen
        (runB (stepB s (AgentEvent.toolStart n1 i (some k))).2 mid).2).2).byKey k =
        some (resolveOrCreateToolCallId (closeIfOpen s).2 n1 (some k)).1 := by
      rw [(closeIfOpen_corr _).2.1]
      exact h2
    rw [stepB_toolEnd_resultIds, hnk]
    simp [consumeToolCallId, h3]

theorem C1_keyed_tool_call_id_pairing_witness :
    ∃ id,
      argsIds (stepB initB (AgentEvent.toolStart "esp" "i" (some "K1"))).1 = [id] ∧
      resultIds
        (stepB (runB (stepB initB (AgentEvent.toolStart "esp" "i" (some "K1"))).2
            [AgentEvent.token "x", AgentEvent.toolStart "esp" "j" (some "K2")]).2
          (AgentEvent.toolEnd "esp" "o" (some "K1"))).1 = [id] :=
  C1_keyed_tool_call_id_pairing.1 initB
    [AgentEvent.token "x", AgentEvent.toolStart "esp" "j" (some "K2")]
    "esp" "esp" "i" "o" "K1" (by decide) (by decide)

theorem stepB_toolStart_none_corr (s : BState) (n i : String) :
    (stepB s (AgentEvent.toolStart n i none)).2.counter = s.counter + 1
    ∧ (stepB s (AgentEvent.toolStart n i none)).2.pending n =
        s.pending n ++ [s.counter + 1]
    ∧ argsIds (stepB s (AgentEvent.toolStart n i none)).1 = [s.counter + 1] := by
  have hc := closeIfOpen_corr s
  refine ⟨?_, ?_, ?_⟩
  · rw [stepB_toolStart_state]
    simp [normKey, resolveOrCreateToolCallId, hc.1]
  · rw [stepB_toolStart_state]
    simp [normKey, resolveOrCreateToolCallId, hc.1, hc.2.2]
  · rw [stepB_toolStart_argsIds]
    simp [normKey, resolveOrCreateToolCallId, hc.1]

theorem stepB_toolEnd_none_fifo (s : BState) (n o : String) (id : Nat)
    (rest : List Nat) (h : s.pending n = id :: rest) :
    resultIds (stepB s (AgentEvent.toolEnd n o none)).1 = [id]
    ∧ (stepB s (AgentEvent.toolEnd n o none)).2.pending n = rest
    ∧ (stepB s (AgentEvent.toolEnd n o none)).2.counter = s.counter := by
  have hc := closeIfOpen_corr s
  have hp : ((closeIfOpen s).2).pending n = id :: rest := by rw [hc.2.2]; exact h
  refine ⟨?_, ?_, ?_⟩
  · rw [stepB_toolEnd_resultIds]
    simp [normKey, consumeToolCallId, consumeFifo, hp]
  · rw [stepB_toolEnd_state]
    simp [normKey, consumeToolCallId, consumeFifo, hp]
  · rw [stepB_toolEnd_state]
    simp [normKey, consumeToolCallId, consumeFifo, hp, hc.1]

/-- C2: when tool events carry no correlation key and a tool name has
several unresolved starts in flight, tool_end events pair with the
identifiers in FIFO order: two keyless starts for the same name followed
by two keyless ends pair the first end with the first start and the
second end with the second start, with distinct identifiers. -/
theorem C2_fifo_pairing_without_key (s : BState) (n i1 i2 o1 o2 : String)
    (hp : s.pending n = []) :
    ∃ id1 id2, id1 ≠ id2
      ∧ argsIds (stepB s (AgentEvent.toolStart n i1 none)).1 = [id1]
      ∧ argsIds (stepB (stepB s (AgentEvent.toolStart n i1 none)).2
          (AgentEvent.toolStart n i2 none)).1 = [id2]
      ∧ resultIds (stepB (stepB (stepB s (AgentEvent.toolStart n i1 none)).2
          (AgentEvent.toolStart n i2 none)).2
          (AgentEvent.toolEnd n o1 none)).1 = [id1]
      ∧ resultIds (stepB (stepB (stepB (stepB s
          (AgentEvent.toolStart n i1 none)).2
          (AgentEvent.toolStart n i2 none)).2
          (AgentEvent.toolEnd n o1 none)).2
          (AgentEvent.toolEnd n o2 none)).1 = [id2] := by
  obtain ⟨h1c, h1p, h1a⟩ := stepB_toolStart_none_corr s n i1
  obtain ⟨h2c, h2p, h2a⟩ :=
    stepB_toolStart_none_corr (stepB s (AgentEvent.toolStart n i1 none)).2 n i2
  rw [h1c] at h2c h2p
  rw [h1p, hp] at h2p
  obtain ⟨h3r, h3p, h3c⟩ :=
    stepB_toolEnd_none_fifo (stepB (stepB s (AgentEvent.toolStart n i1 none)).2
      (AgentEvent.toolStart n i2 none)).2 n o1 (s.counter + 1) [s.counter + 2]
      (by rw [h2p]; rfl)
  obtain ⟨h4r, _, _⟩ :=
    stepB_toolEnd_none_fifo (stepB (stepB (stepB s
      (AgentEvent.toolStart n i1 none)).2
      (AgentEvent.toolStart n i2 none)).2
      (AgentEvent.toolEnd n o1 none)).2 n o2 (s.counter + 2) [] h3p
  refine ⟨s.counter + 1, s.counter + 2, by omega, h1a, ?_, h3r, h4r⟩
  rw [h2a, h1c]

theorem C2_fifo_pairing_without_key_witness :
    ∃ id1 id2, id1 ≠ id2
      ∧ argsIds (stepB initB (AgentEvent.toolStart "esp" "a" none)).1 = [id1]
      ∧ argsIds (stepB (stepB initB (AgentEvent.toolStart "esp" "a" none)).2
          (AgentEvent.toolStart "esp" "b" none)).1 = [id2]
      ∧ resultIds (stepB (stepB (stepB initB
          (AgentEvent.toolStart "esp" "a" none)).2
          (AgentEvent.toolStart "esp" "b" none)).2
          (AgentEvent.toolEnd "esp" "r1" none)).1 = [id1]
      ∧ resultIds (stepB (stepB (stepB (stepB initB
          (AgentEvent.toolStart "esp" "a" none)).2
          (AgentEvent.toolStart "esp" "b" none)).2
          (AgentEvent.toolEnd "esp" "r1" none)).2
          (AgentEvent.toolEnd "esp" "r2" none)).1 = [id2] :=
  C2_fifo_pairing_without_key initB "esp" "a" "b" "r1" "r2" (by decide)

/-- C10: translating a tool_end is total: exactly one TOOL_CALL_RESULT is
emitted for every tool_end in every state, and when no matching start
exists (unknown or absent key and an empty per-name FIFO) a fresh
identifier (the incremented counter) is allocated for the result instead
of failing. -/
theorem C10_tool_end_translation_total (s : BState) (n o : String)
    (key : Option String) :
    (resultIds (stepB s (AgentEvent.toolEnd n o key)).1).length = 1
    ∧ ((match normKey key with
        | some k => s.byKey k = none
        | none => True) → s.pending n = [] →
        resultIds (stepB s (AgentEvent.toolEnd n o key)).1 = [s.counter + 1]
        ∧ (stepB s (AgentEvent.toolEnd n o key)).2.counter = s.counter + 1) := by
  have hc := closeIfOpen_corr s
  constructor
  · rw [stepB_toolEnd_resultIds]
    rfl
  · intro hkey hpend
    have hp : ((closeIfOpen s).2).pending n = [] := by rw [hc.2.2]; exact hpend
    cases hnk : normKey key with
    | none =>
      rw [stepB_toolEnd_resultIds, stepB_toolEnd_state, hnk]
      simp [consumeToolCallId, consumeFifo, newToolCallId, hp, hc.1]
    | some k =>
      rw [hnk] at hkey
      have hbk : ((closeIfOpen s).2).byKey k = none := by
        rw [hc.2.1]; exact hkey
      rw [stepB_toolEnd_resultIds, stepB_toolEnd_state, hnk]
      simp [consumeToolCallId, consumeFifo, newToolCallId, hp, hbk, hc.1]

theorem C10_tool_end_translation_total_witness :
    resultIds (stepB initB (AgentEvent.toolEnd "t" "o" (some "zzz"))).1 =
      [initB.counter + 1]
    ∧ (stepB initB (AgentEvent.toolEnd "t" "o" (some "zzz"))).2.counter =
        initB.counter + 1 :=
  (C10_tool_end_translation_total initB "t" "o" (some "zzz")).2
    (show initB.byKey "zzz" = none from rfl) (by decide)

/-- Terminal lifecycle events: `RUN_ERROR`, `TEXT_MESSAGE_END`,
`RUN_FINISHED`.  The event loop body of `_agui_run_stream` never emits
any of these. -/
def isTailLifecycle : OutEvent → Bool
  | OutEvent.runError _ => true
  | OutEvent.textMessageEnd => true
  | OutEvent.runFinished => true
  | _ => false

/-- An in-band `RUN_ERROR` event (any message). -/
def isRunErrorEv : OutEvent → Bool
  | OutEvent.runError _ => true
  | _ => false

theorem closeIfOpen_no_tail (s : BState) :
    ∀ x ∈ (closeIfOpen s).1, isTailLifecycle x = false := by
  cases hT : s.thinkingTextOpen <;> cases hS : s.syntheticOpen <;>
    simp [closeIfOpen, emitThinkingEndIfOpen, hT, hS, isTailLifecycle]

theorem closeIfSynthetic_no_tail (s : BState) :
    ∀ x ∈ (closeIfSynthetic s).1, isTailLifecycle x = false := by
  cases hT : s.thinkingTextOpen <;> cases hS : s.syntheticOpen <;>
    simp [closeIfSynthetic, emitThinkingEndIfOpen, hT, hS, isTailLifecycle]

theorem closeIfOpen_tail_count (s : BState) :
    (closeIfOpen s).1.countP isTailLifecycle = 0 := by
  cases hT : s.thinkingTextOpen <;> cases hS : s.syntheticOpen <;>
    simp [closeIfOpen, emitThinkingEndIfOpen, hT, hS, isTailLifecycle]

theorem closeIfSynthetic_tail_count (s : BState) :
    (closeIfSynthetic s).1.countP isTailLifecycle = 0 := by
  cases hT : s.thinkingTextOpen <;> cases hS : s.syntheticOpen <;>
    simp [closeIfSynthetic, emitThinkingEndIfOpen, hT, hS, isTailLifecycle]

theorem stepB_tail_count (s : BState) (e : AgentEvent) :
    (stepB s e).1.countP isTailLifecycle = 0 := by
  cases e <;> simp only [stepB] <;> repeat' split
  all_goals
    simp [List.countP_append, closeIfOpen_tail_count, closeIfSynthetic_tail_count,
      isTailLifecycle]

theorem stepB_no_tail (s : BState) (e : AgentEvent) :
    ∀ x ∈ (stepB s e).1, isTailLifecycle x = false := by
  have h := stepB_tail_count s e
  rw [List.countP_eq_zero] at h
  intro x hx
  simpa using h x hx

theorem runB_no_tail (evs : List AgentEvent) (s : BState) :
    ∀ x ∈ (runB s evs).1, isTailLifecycle x = false := by
  induction evs generalizing s with
  | nil => simp [runB]
  | cons e es ih =>
    intro x hx
    simp only [runB, List.mem_append] at hx
    rcases hx with hx | hx
    · exact stepB_no_tail s e x hx
    · exact ih (stepB s e).2 x hx

/-- C8: if the upstream event sequence raises after yielding any prefix of
events, Translator B ends its output with a single `RUN_ERROR` event
carrying the exception text, and emits no `TEXT_MESSAGE_END` and no
`RUN_FINISHED` anywhere in the stream (the exception never escapes: the
translation is total). -/
theorem C8_exception_short_circuits_to_run_error (evs : List AgentEvent)
    (msg : String) :
    (translateB evs (some msg)).getLast? = some (OutEvent.runError msg)
    ∧ (translateB evs (some msg)).countP isRunErrorEv = 1
    ∧ OutEvent.textMessageEnd ∉ translateB evs (some msg)
    ∧ OutEvent.runFinished ∉ translateB evs (some msg) := by
  have hshape : translateB evs (some msg) =
      ([OutEvent.runStarted, OutEvent.textMessageStart] ++
        (emitSyntheticThinkingStart initB).1 ++
        (runB (emitSyntheticThinkingStart initB).2 evs).1) ++
        [OutEvent.runError msg] := by
    simp [translateB]
  have hpre : ∀ x ∈ ([OutEvent.runStarted, OutEvent.textMessageStart] ++
      (emitSyntheticThinkingStart initB).1 ++
      (runB (emitSyntheticThinkingStart initB).2 evs).1),
      isTailLifecycle x = false := by
    intro x hx
    rw [List.mem_append] at hx
    rcases hx with hx | hx
    · rw [List.mem_append] at hx
      rcases hx with hx | hx
      · simp at hx
        rcases hx with hx | hx <;> subst hx <;> rfl
      · simp only [emitSyntheticThinkingStart, initB] at hx
        simp at hx
        rcases hx with hx | hx | hx <;> subst hx <;> rfl
    · exact runB_no_tail evs _ x hx
  rw [hshape]
  refine ⟨?_, ?_, ?_, ?_⟩
  · rw [List.getLast?_concat]
  · rw [List.countP_append]
    have h0 : ([OutEvent.runStarted, OutEvent.textMessageStart] ++
        (emitSyntheticThinkingStart initB).1 ++
        (runB (emitSyntheticThinkingStart initB).2 evs).1).countP isRunErrorEv
        = 0 := by
      rw [List.countP_eq_zero]
      intro x hx
      have := hpre x hx
      cases x <;> simp_all [isTailLifecycle, isRunErrorEv]
    rw [h0]
    rfl
  · intro hmem
    rw [List.mem_append] at hmem
    rcases hmem with hmem | hmem
    · have := hpre _ hmem
      simp [isTailLifecycle] at this
    · simp at hmem
  · intro hmem
    rw [List.mem_append] at hmem
    rcases hmem with hmem | hmem
    · have := hpre _ hmem
      simp [isTailLifecycle] at this
    · simp at hmem

theorem pairwise_key_unique {l : List Hit}
    (hnd : l.Pairwise fun a b => dedupKey a ≠ dedupKey b)
    {a b : Hit} (ha : a ∈ l) (hb : b ∈ l)
    (hk : dedupKey a = dedupKey b) : a = b := by
  induction l with
  | nil => cases ha
  | cons x xs ih =>
    rw [List.pairwise_cons] at hnd
    rcases List.mem_cons.mp ha with ha1 | ha1 <;>
      rcases List.mem_cons.mp hb with hb1 | hb1
    · rw [ha1, hb1]
    · subst ha1
      exact absurd hk (hnd.1 b hb1)
    · subst hb1
      exact absurd hk.symm (hnd.1 a ha1)
    · exact ih hnd.2 ha1 hb1

theorem dedupStep_mem (acc : List Hit) (h : Hit) :
    ∀ e ∈ dedupStep acc h, e ∈ acc ∨ e = h := by
  induction acc with
  | nil =>
    intro e he
    simp [dedupStep] at he
    exact Or.inr he
  | cons x xs ih =>
    intro e he
    simp only [dedupStep] at he
    by_cases hk : dedupKey x = dedupKey h
    · rw [if_pos hk] at he
      by_cases hl : h.latency_ms < x.latency_ms
      · rw [if_pos hl] at he
        rcases List.mem_cons.mp he with he1 | he1
        · exact Or.inr he1
        · exact Or.inl (List.mem_cons_of_mem x he1)
      · rw [if_neg hl] at he
        exact Or.inl he
    · rw [if_neg hk] at he
      rcases List.mem_cons.mp he with he1 | he1
      · exact Or.inl (he1 ▸ List.mem_cons_self x xs)
      · rcases ih e he1 with h2 | h2
        · exact Or.inl (List.mem_cons_of_mem x h2)
        · exact Or.inr h2

theorem dedupStep_cover_acc (acc : List Hit) (h : Hit) :
    ∀ a ∈ acc, ∃ e ∈ dedupStep acc h,
      dedupKey e = dedupKey a ∧ e.latency_ms ≤ a.latency_ms := by
  induction acc with
  | nil => intro a ha; cases ha
  | cons x xs ih =>
    intro a ha
    simp only [dedupStep]
    by_cases hk : dedupKey x = dedupKey h
    · rw [if_pos hk]
      by_cases hl : h.latency_ms < x.latency_ms
      · rw [if_pos hl]
        rcases List.mem_cons.mp ha with ha1 | ha1
        · exact ⟨h, List.mem_cons_self h xs, by rw [← hk, ha1],
            by rw [ha1]; omega⟩
        · exact ⟨a, List.mem_cons_of_mem h ha1, rfl, le_refl _⟩
      · rw [if_neg hl]
        exact ⟨a, ha, rfl, le_refl _⟩
    · rw [if_neg hk]
      rcases List.mem_cons.mp ha with ha1 | ha1
      · exact ⟨x, List.mem_cons_self x _, by rw [ha1], by rw [ha1]⟩
      · obtain ⟨e, he, hke, hle⟩ := ih a ha1
        exact ⟨e, List.mem_cons_of_mem x he, hke, hle⟩

theorem dedupStep_cover_hit (acc : List Hit) (h : Hit) :
    ∃ e ∈ dedupStep acc h,
      dedupKey e = dedupKey h ∧ e.latency_ms ≤ h.latency_ms := by
  induction acc with
  | nil => exact ⟨h, by simp [dedupStep], rfl, le_refl _⟩
  | cons x xs ih =>
    simp only [dedupStep]
    by_cases hk : dedupKey x = dedupKey h
    · rw [if_pos hk]
      by_cases hl : h.latency_ms < x.latency_ms
      · rw [if_pos hl]
        exact ⟨h, List.mem_cons_self h xs, rfl, le_refl _⟩
      · rw [if_neg hl]
        exact ⟨x, List.mem_cons_self x xs, hk, by omega⟩
    · rw [if_neg hk]
      obtain ⟨e, he, hke, hle⟩ := ih
      exact ⟨e, List.mem_cons_of_mem x he, hke, hle⟩

theorem dedupStep_pairwise (acc : List Hit) (h : Hit)
    (hpw : acc.Pairwise fun a b => dedupKey a ≠ dedupKey b) :
    (dedupStep acc h).Pairwise fun a b => dedupKey a ≠ dedupKey b := by
  induction acc with
  | nil => simp [dedupStep]
  | cons x xs ih =>
    rw [List.pairwise_cons] at hpw
    simp only [dedupStep]
    by_cases hk : dedupKey x = dedupKey h
    · rw [if_pos hk]
      by_cases hl : h.latency_ms < x.latency_ms
      · rw [if_pos hl]
        rw [List.pairwise_cons]
        exact ⟨fun b hb => hk ▸ hpw.1 b hb, hpw.2⟩
      · rw [if_neg hl]
        rw [List.pairwise_cons]
        exact hpw
    · rw [if_neg hk]
      rw [List.pairwise_cons]
      refine ⟨fun b hb => ?_, ih hpw.2⟩
      rcases dedupStep_mem xs h b hb with hb1 | hb1
      · exact hpw.1 b hb1
      · rw [hb1]
        exact hk

theorem dedupStep_min_hit (acc : List Hit) (h : Hit)
    (hpw : acc.Pairwise fun a b => dedupKey a ≠ dedupKey b) :
    ∀ e ∈ dedupStep acc h, dedupKey e = dedupKey h →
      e.latency_ms ≤ h.latency_ms := by
  induction acc with
  | nil =>
    intro e he hke
    simp [dedupStep] at he
    rw [he]
  | cons x xs ih =>
    rw [List.pairwise_cons] at hpw
    intro e he hke
    simp only [dedupStep] at he
    by_cases hk : dedupKey x = dedupKey h
    · rw [if_pos hk] at he
      by_cases hl : h.latency_ms < x.latency_ms
      · rw [if_pos hl] at he
        rcases List.mem_cons.mp he with he1 | he1
        · rw [he1]
        · exact absurd (hk.trans hke.symm) (hpw.1 e he1)
      · rw [if_neg hl] at he
        rcases List.mem_cons.mp he with he1 | he1
        · rw [he1]; omega
        · exact absurd (hk.trans hke.symm) (hpw.1 e he1)
    · rw [if_neg hk] at he
      rcases List.mem_cons.mp he with he1 | he1
      · exact absurd (he1 ▸ hke) hk
      · exact ih hpw.2 e he1 hke

theorem dedupStep_min_acc (acc : List Hit) (h : Hit)
    (hpw : acc.Pairwise fun a b => dedupKey a ≠ dedupKey b) :
    ∀ e ∈ dedupStep acc h, ∀ a ∈ acc, dedupKey a = dedupKey e →
      e.latency_ms ≤ a.latency_ms := by
  induction acc with
  | nil => intro e _ a ha; cases ha
  | cons x xs ih =>
    have hx : ∀ b ∈ xs, dedupKey x ≠ dedupKey b := (List.pairwise_cons.mp hpw).1
    have hxs := (List.pairwise_cons.mp hpw).2
    intro e he a ha hka
    simp only [dedupStep] at he
    by_cases hk : dedupKey x = dedupKey h
    · rw [if_pos hk] at he
      by_cases hl : h.latency_ms < x.latency_ms
      · rw [if_pos hl] at he
        rcases List.mem_cons.mp he with he1 | he1
        · subst he1
          rcases List.mem_cons.mp ha with ha1 | ha1
          · subst ha1
            omega
          · exact absurd (hk.trans hka.symm) (hx a ha1)
        · rcases List.mem_cons.mp ha with ha1 | ha1
          · subst ha1
            exact absurd hka (hx e he1)
          · have hae := pairwise_key_unique hxs ha1 he1 hka
            rw [hae]
      · rw [if_neg hl] at he
        have hae := pairwise_key_unique hpw ha he hka
        rw [hae]
    · rw [if_neg hk] at he
      rcases List.mem_cons.mp he with he1 | he1
      · subst he1
        rcases List.mem_cons.mp ha with ha1 | ha1
        · rw [ha1]
        · exact absurd hka.symm (hx a ha1)
      · rcases List.mem_cons.mp ha with ha1 | ha1
        · subst ha1
          rcases dedupStep_mem xs h e he1 with he2 | he2
          · exact absurd hka (hx e he2)
          · subst he2
            exact absurd hka hk
        · exact ih hxs e he1 a ha1 hka

theorem dedupFold_spec (rest : List Hit) (acc : List Hit)
    (hpw : acc.Pairwise fun a b => dedupKey a ≠ dedupKey b) :
    (rest.foldl dedupStep acc).Pairwise (fun a b => dedupKey a ≠ dedupKey b)
    ∧ (∀ h ∈ rest, ∃ e ∈ rest.foldl dedupStep acc, dedupKey e = dedupKey h)
    ∧ (∀ a ∈ acc, ∃ e ∈ rest.foldl dedupStep acc,
        dedupKey e = dedupKey a ∧ e.latency_ms ≤ a.latency_ms)
    ∧ (∀ e ∈ rest.foldl dedupStep acc,
        (e ∈ acc ∨ e ∈ rest)
        ∧ (∀ h2 ∈ rest, dedupKey h2 = dedupKey e →
            e.latency_ms ≤ h2.latency_ms)
        ∧ (∀ a ∈ acc, dedupKey a = dedupKey e →
            e.latency_ms ≤ a.latency_ms)) := by
  induction rest generalizing acc with
  | nil =>
    refine ⟨hpw, by simp, fun a ha => ⟨a, ha, rfl, le_refl _⟩, fun e he => ?_⟩
    exact ⟨Or.inl he, by simp, fun a ha hka =>
      le_of_eq (congrArg Hit.latency_ms (pairwise_key_unique hpw ha he hka)).symm⟩
  | cons h rest ih =>
    have hpw2 := dedupStep_pairwise acc h hpw
    obtain ⟨ih1, ih2, ih3, ih4⟩ := ih (dedupStep acc h) hpw2
    simp only [List.foldl_cons]
    refine ⟨ih1, ?_, ?_, ?_⟩
    · intro h2 hh2
      rcases List.mem_cons.mp hh2 with hh2 | hh2
      · obtain ⟨a0, ha0, hka0, _⟩ := dedupStep_cover_hit acc h
        obtain ⟨e, he, hke, _⟩ := ih3 a0 ha0
        exact ⟨e, he, hh2 ▸ (hke.trans hka0)⟩
      · exact ih2 h2 hh2
    · intro a ha
      obtain ⟨a1, ha1, hka1, hla1⟩ := dedupStep_cover_acc acc h a ha
      obtain ⟨e, he, hke, hle⟩ := ih3 a1 ha1
      exact ⟨e, he, hke.trans hka1, le_trans hle hla1⟩
    · intro e he
      obtain ⟨hmem, hmin2, hmin3⟩ := ih4 e he
      refine ⟨?_, ?_, ?_⟩
      · rcases hmem with hm | hm
        · rcases dedupStep_mem acc h e hm with hm2 | hm2
          · exact Or.inl hm2
          · exact Or.inr (hm2 ▸ List.mem_cons_self h rest)
        · exact Or.inr (List.mem_cons_of_mem h hm)
      · intro h2 hh2 hkh2
        rcases List.mem_cons.mp hh2 with hh2 | hh2
        · subst hh2
          obtain ⟨a0, ha0, hka0, hla0⟩ := dedupStep_cover_hit acc h2
          have := hmin3 a0 ha0 (hka0.trans hkh2)
          omega
        · exact hmin2 h2 hh2 hkh2
      · intro a ha hka
        obtain ⟨a1, ha1, hka1, hla1⟩ := dedupStep_cover_acc acc h a ha
        have := hmin3 a1 ha1 (hka1.trans hka)
        omega

/-- C5: for every list of positive discovery hits, the deduplicated scan
result has pairwise-distinct `(base_url, transport)` keys, covers every
key occurring among the hits (so there is exactly one entry per key), and
each entry is one of the hits with the minimal latency among all hits
sharing its key. -/
theorem C5_dedup_one_entry_min_latency (hits : List Hit) :
    (dedupHits hits).Pairwise (fun a b => dedupKey a ≠ dedupKey b)
    ∧ (∀ h ∈ hits, ∃ e ∈ dedupHits hits, dedupKey e = dedupKey h)
    ∧ (∀ e ∈ dedupHits hits, e ∈ hits
        ∧ ∀ h ∈ hits, dedupKey h = dedupKey e →
            e.latency_ms ≤ h.latency_ms) := by
  obtain ⟨h1, h2, _, h4⟩ := dedupFold_spec hits [] List.Pairwise.nil
  refine ⟨h1, h2, fun e he => ?_⟩
  obtain ⟨hmem, hmin, _⟩ := h4 e he
  rcases hmem with hm | hm
  · cases hm
  · exact ⟨hm, hmin⟩

theorem C5_dedup_one_entry_min_latency_witness :
    ∃ e ∈ dedupHits
        [{ transport := "mcp_jsonrpc", base_url := "http://10.0.0.5:8080",
           mcp_path := "/mcp", timeout_seconds := 1, latency_ms := 120 },
         { transport := "mcp_jsonrpc", base_url := "http://10.0.0.5:8080",
           mcp_path := "/mcp", timeout_seconds := 1, latency_ms := 50 }],
      dedupKey e = dedupKey
        { transport := "mcp_jsonrpc", base_url := "http://10.0.0.5:8080",
          mcp_path := "/mcp", timeout_seconds := 1, latency_ms := 120 } :=
  (C5_dedup_one_entry_min_latency
      [{ transport := "mcp_jsonrpc", base_url := "http://10.0.0.5:8080",
         mcp_path := "/mcp", timeout_seconds := 1, latency_ms := 120 },
       { transport := "mcp_jsonrpc", base_url := "http://10.0.0.5:8080",
         mcp_path := "/mcp", timeout_seconds := 1, latency_ms := 50 }]).2.1
    { transport := "mcp_jsonrpc", base_url := "http://10.0.0.5:8080",
      mcp_path := "/mcp", timeout_seconds := 1, latency_ms := 120 }
    (by decide)

theorem regStep_keys_mono (namePfx : String) (st : RegState) (h : Hit) :
    ∀ k ∈ st.keys, k ∈ (regStep namePfx st h).keys := by
  intro k hk
  simp only [regStep]
  split
  · exact hk
  · split
    · exact hk
    · exact List.mem_append_left _ hk

theorem regFold_keys_mono (namePfx : String) (hits : List Hit) (st : RegState) :
    ∀ k ∈ st.keys, k ∈ (hits.foldl (regStep namePfx) st).keys := by
  induction hits generalizing st with
  | nil => exact fun k hk => hk
  | cons h hs ih =>
    intro k hk
    exact ih (regStep namePfx st h) k (regStep_keys_mono namePfx st h k hk)

theorem regStep_skip_existing (namePfx : String) (st : RegState) (h : Hit)
    (hk : (pyStrip h.base_url, pyStrip h.transport) ∈ st.keys) :
    regStep namePfx st h = st := by
  simp only [regStep]
  split
  · rfl
  · rw [if_pos]
    exact List.elem_eq_true_of_mem hk

theorem genNameGo_shape (names : List String) (stem : String) :
    ∀ (f : Nat) (cand : String) (idx : Nat),
      genNameGo names stem f cand idx = cand
      ∨ ∃ j, idx ≤ j ∧
          genNameGo names stem f cand idx = stem ++ "-" ++ toString j := by
  intro f
  induction f with
  | zero => exact fun cand idx => Or.inl rfl
  | succ f ih =>
    intro cand idx
    simp only [genNameGo]
    split
    · rcases ih (stem ++ "-" ++ toString idx) (idx + 1) with h | ⟨j, hj, hres⟩
      · exact Or.inr ⟨idx, le_refl _, h⟩
      · exact Or.inr ⟨j, by omega, hres⟩
    · exact Or.inl rfl

theorem genName_shape (names : List String) (stem : String) :
    genName names stem = stem
    ∨ ∃ j, 2 ≤ j ∧ genName names stem = stem ++ "-" ++ toString j :=
  genNameGo_shape names stem (names.length + 1) stem 2

theorem registerServer_mem (rs : List SrvConfig) (cfg : SrvConfig) :
    ∀ c ∈ registerServer rs cfg, c ∈ rs ∨ c = cfg := by
  intro c hc
  simp only [registerServer] at hc
  split at hc
  · obtain ⟨e, he, hce⟩ := List.mem_map.mp hc
    by_cases hn : e.name = cfg.name
    · rw [if_pos hn] at hce
      exact Or.inr hce.symm
    · rw [if_neg hn] at hce
      exact Or.inl (hce ▸ he)
  · rcases List.mem_append.mp hc with hc1 | hc1
    · exact Or.inl hc1
    · exact Or.inr (List.mem_singleton.mp hc1)

/-- Shape of a registry entry produced for a discovered hit: fields copied
from the (stripped) hit, a name equal to the stem or the stem with a
numeric suffix at least 2, and no auth token. -/
def savedShape (namePfx : String) (h : Hit) (c : SrvConfig) : Prop :=
  c.base_url = pyStrip h.base_url ∧ c.transport = pyStrip h.transport
  ∧ c.mcp_path = h.mcp_path ∧ c.timeout_seconds = h.timeout_seconds
  ∧ c.auth_token = none
  ∧ (c.name = discoveredStem namePfx h
      ∨ ∃ j, 2 ≤ j ∧ c.name = discoveredStem namePfx h ++ "-" ++ toString j)

theorem regFold_reg_mem (namePfx : String) (hits : List Hit) (st : RegState) :
    ∀ c ∈ (hits.foldl (regStep namePfx) st).reg,
      c ∈ st.reg ∨ ∃ h ∈ hits, savedShape namePfx h c := by
  induction hits generalizing st with
  | nil => exact fun c hc => Or.inl hc
  | cons h hs ih =>
    intro c hc
    rcases ih (regStep namePfx st h) c hc with hc1 | ⟨h2, hh2, hs2⟩
    · simp only [regStep] at hc1
      split at hc1
      · exact Or.inl hc1
      · split at hc1
        · exact Or.inl hc1
        · rcases registerServer_mem _ _ c hc1 with hc2 | hc2
          · exact Or.inl hc2
          · refine Or.inr ⟨h, List.mem_cons_self h hs, ?_⟩
            rw [hc2]
            refine ⟨rfl, rfl, rfl, rfl, rfl, ?_⟩
            exact genName_shape st.names
              (namePfx ++ "-" ++ pyStrip h.transport ++ "-" ++
                sanitizeHostPort (pyStrip h.base_url))
    · exact Or.inr ⟨h2, List.mem_cons_of_mem h hh2, hs2⟩

/-- C6: a scan with `save` set skips every deduplicated hit whose
`(base_url, transport)` already exists in the registry (the fold is
unchanged by that hit, so nothing is registered twice); every entry the
save adds to the registry carries the hit fields and a name built from
the prefix, transport and sanitized host:port, disambiguated by a numeric
suffix starting at 2; and the example collision yields the name
`prefix-json_rpc-10.0.0.5-8080-2`. -/
theorem C6_register_discovered_skip_and_names :
    (∀ (reg : List SrvConfig) (namePfx : String) (pre post : List Hit)
        (h : Hit),
      (pyStrip h.base_url, pyStrip h.transport) ∈
          reg.map (fun c => (c.base_url, c.transport)) →
      registerDiscovered reg (pre ++ h :: post) namePfx =
        registerDiscovered reg (pre ++ post) namePfx)
    ∧ (∀ (reg : List SrvConfig) (namePfx : String) (hits : List Hit)
        (c : SrvConfig),
      c ∈ (registerDiscovered reg hits namePfx).1 →
      c ∈ reg ∨ ∃ h ∈ hits, savedShape namePfx h c)
    ∧ (registerDiscovered
        [{ name := "prefix-json_rpc-10.0.0.5-8080", base_url := "http://other",
           transport := "json_rpc", mcp_path := "/mcp", timeout_seconds := 5,
           auth_token := none }]
        [{ transport := "json_rpc", base_url := "http://10.0.0.5:8080",
           mcp_path := "/mcp", timeout_seconds := 5, latency_ms := 50 }]
        "prefix").1 =
      [{ name := "prefix-json_rpc-10.0.0.5-8080", base_url := "http://other",
         transport := "json_rpc", mcp_path := "/mcp", timeout_seconds := 5,
         auth_token := none },
       { name := "prefix-json_rpc-10.0.0.5-8080-2",
         base_url := "http://10.0.0.5:8080",
         transport := "json_rpc", mcp_path := "/mcp", timeout_seconds := 5,
         auth_token := none }] := by
  refine ⟨?_, ?_, by decide⟩
  · intro reg namePfx pre post h hk
    simp only [registerDiscovered, List.foldl_append, List.foldl_cons]
    rw [regStep_skip_existing namePfx _ h
      (regFold_keys_mono namePfx pre _ _ hk)]
  · intro reg namePfx hits c hc
    exact regFold_reg_mem namePfx hits _ c hc

theorem C6_register_discovered_skip_and_names_witness :
    registerDiscovered
        [{ name := "a", base_url := "http://10.0.0.5:8080",
           transport := "json_rpc", mcp_path := "/mcp", timeout_seconds := 5,
           auth_token := none }]
        ([] ++
          { transport := "json_rpc", base_url := "http://10.0.0.5:8080",
            mcp_path := "/mcp", timeout_seconds := 5, latency_ms := 50 } :: [])
        "prefix" =
      registerDiscovered
        [{ name := "a", base_url := "http://10.0.0.5:8080",
           transport := "json_rpc", mcp_path := "/mcp", timeout_seconds := 5,
           auth_token := none }]
        ([] ++ []) "prefix" :=
  C6_register_discovered_skip_and_names.1
    [{ name := "a", base_url := "http://10.0.0.5:8080",
       transport := "json_rpc", mcp_path := "/mcp", timeout_seconds := 5,
       auth_token := none }]
    "prefix" [] []
    { transport := "json_rpc", base_url := "http://10.0.0.5:8080",
      mcp_path := "/mcp", timeout_seconds := 5, latency_ms := 50 }
    (by decide)

/-- C7: the scan raises a request-validation error, before consulting any
probe, when the port list is empty or invalid or when `max_hosts` is not
positive (the result is an `Except.error` and is independent of the probe
oracles); each listed probe failure (exception/timeout, 5xx or non-200
status, malformed body) yields a negative probe result; and whenever the
validations pass the scan returns `Except.ok` for every probe oracle, so
probe failures never abort it. -/
theorem C7_scan_validation_and_probe_isolation :
    (∀ (hostsAll : List String) (portsCsv : String) (timeoutS : Nat)
        (maxHosts : Int) (save : Bool) (namePfx : String)
        (reg : List SrvConfig)
        (m1 e1 m2 e2 : String → Int → HttpOutcome × Nat),
      ((parsePorts portsCsv = Except.ok [] ∨
          ∃ msg, parsePorts portsCsv = Except.error msg) ∨ maxHosts ≤ 0) →
      (∃ msg, discoverMcpServers hostsAll portsCsv timeoutS maxHosts save
          namePfx reg m1 e1 = Except.error msg)
      ∧ discoverMcpServers hostsAll portsCsv timeoutS maxHosts save namePfx
          reg m1 e1 =
        discoverMcpServers hostsAll portsCsv timeoutS maxHosts save namePfx
          reg m2 e2)
    ∧ (∀ (host : String) (port : Int) (timeoutS latency : Nat),
        probeMcpJsonrpc HttpOutcome.exn host port timeoutS latency = none
        ∧ probeEsp32Rest HttpOutcome.exn host port timeoutS latency = none
        ∧ (∀ (status : Nat) (body : Option JsonV), 500 ≤ status →
            probeMcpJsonrpc (HttpOutcome.resp status body) host port timeoutS
              latency = none)
        ∧ (∀ status : Nat,
            probeMcpJsonrpc (HttpOutcome.resp status none) host port timeoutS
              latency = none)
        ∧ (∀ (status : Nat) (body : Option JsonV), status ≠ 200 →
            probeEsp32Rest (HttpOutcome.resp status body) host port timeoutS
              latency = none)
        ∧ (∀ status : Nat,
            probeEsp32Rest (HttpOutcome.resp status none) host port timeoutS
              latency = none))
    ∧ (∀ (hostsAll : List String) (portsCsv : String) (timeoutS : Nat)
        (maxHosts : Int) (save : Bool) (namePfx : String)
        (reg : List SrvConfig) (m1 e1 : String → Int → HttpOutcome × Nat)
        (ports : List Int),
      parsePorts portsCsv = Except.ok ports → ports ≠ [] → 0 < maxHosts →
      ∃ r, discoverMcpServers hostsAll portsCsv timeoutS maxHosts save
          namePfx reg m1 e1 = Except.ok r) := by
  refine ⟨?_, ?_, ?_⟩
  · intro hostsAll portsCsv timeoutS maxHosts save namePfx reg m1 e1 m2 e2 hbad
    cases hp : parsePorts portsCsv with
    | error e => exact ⟨⟨e, by simp [discoverMcpServers, hp]⟩,
        by simp [discoverMcpServers, hp]⟩
    | ok ports =>
      by_cases hports : ports = []
      · subst hports
        exact ⟨⟨"No valid ports to scan", by simp [discoverMcpServers, hp]⟩,
          by simp [discoverMcpServers, hp]⟩
      · have hmax : maxHosts ≤ 0 := by
          rcases hbad with (h | ⟨msg, h⟩) | h
          · rw [hp] at h
            exact absurd (Except.ok.inj h) hports
          · rw [hp] at h
            cases h
          · exact h
        exact ⟨⟨"max_hosts must be > 0",
            by simp [discoverMcpServers, hp, hports, hmax]⟩,
          by simp [discoverMcpServers, hp, hports, hmax]⟩
  · intro host port timeoutS latency
    refine ⟨rfl, rfl, ?_, ?_, ?_, ?_⟩
    · intro status body h500
      simp [probeMcpJsonrpc, h500]
    · intro status
      simp only [probeMcpJsonrpc]
      split <;> rfl
    · intro status body h200
      simp [probeEsp32Rest, h200]
    · intro status
      simp only [probeEsp32Rest]
      split <;> rfl
  · intro hostsAll portsCsv timeoutS maxHosts save namePfx reg m1 e1 ports
      hp hports hmax
    have hmax2 : ¬ maxHosts ≤ 0 := by omega
    exact ⟨_, by simp only [discoverMcpServers, hp]; rw [if_neg hports, if_neg hmax2]⟩

theorem C7_scan_validation_and_probe_isolation_witness :
    ∃ r, discoverMcpServers ["10.0.0.5"] "8080" 1 64 false "discovered" []
        (fun _ _ => (HttpOutcome.exn, 0)) (fun _ _ => (HttpOutcome.exn, 0)) =
      Except.ok r :=
  C7_scan_validation_and_probe_isolation.2.2 ["10.0.0.5"] "8080" 1 64 false
    "discovered" [] (fun _ _ => (HttpOutcome.exn, 0))
    (fun _ _ => (HttpOutcome.exn, 0)) [8080] rfl (by decide) (by decide)

/-- Thinking-span depth transition of one wire event: `THINKING_START`
opens (depth 1), `THINKING_END` closes (depth 0), all else keeps depth. -/
def tkNext (d : Nat) : OutEvent → Nat
  | OutEvent.thinkingStart _ _ => 1
  | OutEvent.thinkingEnd => 0
  | _ => d

/-- Thinking-span depth after a list of wire events. -/
def tkDepth (d : Nat) : List OutEvent → Nat
  | [] => d
  | e :: es => tkDepth (tkNext d e) es

/-- Local discipline of one wire event at depth `d`: a thinking span may
only open at depth 0 (so at most one is open at a time), may only close
when one is open, and `TEXT_MESSAGE_CONTENT`, `TOOL_CALL_START` and
`TEXT_MESSAGE_END` may only occur with no span open. -/
def scanStepOk (d : Nat) : OutEvent → Bool
  | OutEvent.thinkingStart _ _ => d == 0
  | OutEvent.thinkingEnd => d == 1
  | OutEvent.textMessageContent _ => d == 0
  | OutEvent.toolCallStart _ _ => d == 0
  | OutEvent.textMessageEnd => d == 0
  | _ => true

/-- The discipline `scanStepOk` holds along a whole wire-event list
starting from depth `d`. -/
def scanOkB (d : Nat) : List OutEvent → Bool
  | [] => true
  | e :: es => scanStepOk d e && scanOkB (tkNext d e) es

/-- A synthetic `THINKING_START` (ghost-tagged). -/
def isSynStartEv : OutEvent → Bool
  | OutEvent.thinkingStart true _ => true
  | _ => false

/-- Admissibility of one internal event when a real thinking span is
(`o = true`) or is not open on the input side. -/
def wbHead (o : Bool) : AgentEvent → Bool
  | AgentEvent.thinkingStart _ => !o
  | AgentEvent.thinking _ => o
  | AgentEvent.thinkingEnd => o
  | _ => !o

/-- Input-side open flag after one internal event. -/
def wbNext (o : Bool) : AgentEvent → Bool
  | AgentEvent.thinkingStart _ => true
  | AgentEvent.thinkingEnd => false
  | AgentEvent.thinking _ => o
  | _ => false

/-- Well-bracketing of the thinking events of an internal event sequence
from open-state `o`: `thinking_start` only when closed, `thinking` and
`thinking_end` only when open, token and tool events only when closed,
and closed at the end. -/
def wbFrom (o : Bool) : List AgentEvent → Bool
  | [] => !o
  | e :: es => wbHead o e && wbFrom (wbNext o e) es

/-- Well-bracketed internal event sequence. -/
def wellBracketed (evs : List AgentEvent) : Bool := wbFrom false evs

/-- Relation between the input-side open flag and the translator flags
maintained by the event loop: during a real span the synthetic flag is
down and the text span is open; outside a real span the text flag tracks
the synthetic flag. -/
def BInv (inOpen : Bool) (s : BState) : Prop :=
  (inOpen = true → s.syntheticOpen = false ∧ s.thinkingTextOpen = true)
  ∧ (inOpen = false → s.thinkingTextOpen = s.syntheticOpen)

/-- Output-side thinking depth determined by the input-side open flag and
the synthetic flag. -/
def depthOf (inOpen : Bool) (s : BState) : Nat :=
  if inOpen || s.syntheticOpen then 1 else 0

theorem scanOkB_append (a b : List OutEvent) (d : Nat) :
    scanOkB d (a ++ b) = (scanOkB d a && scanOkB (tkDepth d a) b) := by
  induction a generalizing d with
  | nil => simp [scanOkB, tkDepth]
  | cons e es ih => simp [scanOkB, tkDepth, ih, Bool.and_assoc]

theorem tkDepth_append (a b : List OutEvent) (d : Nat) :
    tkDepth d (a ++ b) = tkDepth (tkDepth d a) b := by
  induction a generalizing d with
  | nil => rfl
  | cons e es ih => simp [tkDepth, ih]

theorem roc_flags (s : BState) (n : String) (key : Option String) :
    ((resolveOrCreateToolCallId s n key).2.2).syntheticOpen = s.syntheticOpen
    ∧ ((resolveOrCreateToolCallId s n key).2.2).thinkingTextOpen =
        s.thinkingTextOpen := by
  cases key with
  | none => simp [resolveOrCreateToolCallId]
  | some k => cases h : s.byKey k <;> simp [resolveOrCreateToolCallId, h]

theorem consumeFifo_flags (s : BState) (n : String) :
    ((consumeFifo s n).2).syntheticOpen = s.syntheticOpen
    ∧ ((consumeFifo s n).2).thinkingTextOpen = s.thinkingTextOpen := by
  cases h : s.pending n <;> simp [consumeFifo, newToolCallId, h]

theorem consume_flags (s : BState) (n : String) (key : Option String) :
    ((consumeToolCallId s n key).2).syntheticOpen = s.syntheticOpen
    ∧ ((consumeToolCallId s n key).2).thinkingTextOpen =
        s.thinkingTextOpen := by
  cases key with
  | none => exact consumeFifo_flags s n
  | some k =>
    cases h : s.byKey k <;>
      simp [consumeToolCallId, h, consumeFifo_flags]

theorem stepB_scan (inOpen : Bool) (s : BState) (e : AgentEvent)
    (hInv : BInv inOpen s) (hAdm : wbHead inOpen e = true) :
    scanOkB (depthOf inOpen s) (stepB s e).1 = true
    ∧ tkDepth (depthOf inOpen s) (stepB s e).1 =
        depthOf (wbNext inOpen e) (stepB s e).2
    ∧ BInv (wbNext inOpen e) (stepB s e).2 := by
  cases e with
  | thinkingStart t =>
    have ho : inOpen = false := by
      cases inOpen
      · rfl
      · simp [wbHead] at hAdm
    subst ho
    have hTS := hInv.2 rfl
    cases hS : s.syntheticOpen with
    | true =>
      have hT : s.thinkingTextOpen = true := by rw [hTS, hS]
      simp [stepB, closeIfSynthetic, emitThinkingEndIfOpen, hS, hT, scanOkB,
        scanStepOk, tkNext, tkDepth, depthOf, BInv, wbNext]
    | false =>
      have hT : s.thinkingTextOpen = false := by rw [hTS, hS]
      simp [stepB, closeIfSynthetic, emitThinkingEndIfOpen, hS, hT, scanOkB,
        scanStepOk, tkNext, tkDepth, depthOf, BInv, wbNext]
  | thinking c =>
    have ho : inOpen = true := by
      cases inOpen
      · simp [wbHead] at hAdm
      · rfl
    subst ho
    obtain ⟨hS, hT⟩ := hInv.1 rfl
    by_cases hc : c = "" <;>
      simp [stepB, closeIfSynthetic, emitThinkingEndIfOpen, hS, hT, hc,
        scanOkB, scanStepOk, tkNext, tkDepth, depthOf, BInv, wbNext]
  | thinkingEnd =>
    have ho : inOpen = true := by
      cases inOpen
      · simp [wbHead] at hAdm
      · rfl
    subst ho
    obtain ⟨hS, hT⟩ := hInv.1 rfl
    simp [stepB, closeIfSynthetic, emitThinkingEndIfOpen, hS, hT, scanOkB,
      scanStepOk, tkNext, tkDepth, depthOf, BInv, wbNext]
  | token c =>
    have ho : inOpen = false := by
      cases inOpen
      · rfl
      · simp [wbHead] at hAdm
    subst ho
    have hTS := hInv.2 rfl
    cases hS : s.syntheticOpen with
    | true =>
      have hT : s.thinkingTextOpen = true := by rw [hTS, hS]
      by_cases hc : c = "" <;>
        simp [stepB, closeIfOpen, emitThinkingEndIfOpen, hS, hT, hc, scanOkB,
          scanStepOk, tkNext, tkDepth, depthOf, BInv, wbNext]
    | false =>
      have hT : s.thinkingTextOpen = false := by rw [hTS, hS]
      by_cases hc : c = "" <;>
        simp [stepB, closeIfOpen, emitThinkingEndIfOpen, hS, hT, hc, scanOkB,
          scanStepOk, tkNext, tkDepth, depthOf, BInv, wbNext]
  | toolStart n i key =>
    have ho : inOpen = false := by
      cases inOpen
      · rfl
      · simp [wbHead] at hAdm
    subst ho
    have hTS := hInv.2 rfl
    have hrf := roc_flags
    cases hS : s.syntheticOpen with
    | true =>
      have hT : s.thinkingTextOpen = true := by rw [hTS, hS]
      by_cases hnew :
          (resolveOrCreateToolCallId
            (closeIfOpen s).2 n (normKey key)).2.1 = true <;>
        simp [stepB, closeIfOpen, emitThinkingEndIfOpen, hS, hT, hnew, hrf,
          scanOkB, scanStepOk, tkNext, tkDepth, depthOf, BInv, wbNext] at * <;>
        simp [closeIfOpen, emitThinkingEndIfOpen, hS, hT, hrf, hnew, scanOkB,
          scanStepOk, tkNext, tkDepth, depthOf, BInv, wbNext]
    | false =>
      have hT : s.thinkingTextOpen = false := by rw [hTS, hS]
      by_cases hnew :
          (resolveOrCreateToolCallId
            (closeIfOpen s).2 n (normKey key)).2.1 = true <;>
        simp [stepB, closeIfOpen, emitThinkingEndIfOpen, hS, hT, hnew, hrf,
          scanOkB, scanStepOk, tkNext, tkDepth, depthOf, BInv, wbNext] at * <;>
        simp [closeIfOpen, emitThinkingEndIfOpen, hS, hT, hrf, hnew, scanOkB,
          scanStepOk, tkNext, tkDepth, depthOf, BInv, wbNext]
  | toolEnd n o key =>
    have ho : inOpen = false := by
      cases inOpen
      · rfl
      · simp [wbHead] at hAdm
    subst ho
    have hTS := hInv.2 rfl
    have hcf := consume_flags
    cases hS : s.syntheticOpen with
    | true =>
      have hT : s.thinkingTextOpen = true := by rw [hTS, hS]
      simp [stepB, closeIfOpen, emitThinkingEndIfOpen, hS, hT, hcf, scanOkB,
        scanStepOk, tkNext, tkDepth, depthOf, BInv, wbNext]
    | false =>
      have hT : s.thinkingTextOpen = false := by rw [hTS, hS]
      simp [stepB, closeIfOpen, emitThinkingEndIfOpen, hS, hT, hcf, scanOkB,
        scanStepOk, tkNext, tkDepth, depthOf, BInv, wbNext]

theorem runB_scan (evs : List AgentEvent) (inOpen : Bool) (s : BState)
    (hInv : BInv inOpen s) (hwb : wbFrom inOpen evs = true) :
    scanOkB (depthOf inOpen s) (runB s evs).1 = true
    ∧ tkDepth (depthOf inOpen s) (runB s evs).1 =
        depthOf false (runB s evs).2
    ∧ BInv false (runB s evs).2 := by
  induction evs generalizing inOpen s with
  | nil =>
    have ho : inOpen = false := by simpa [wbFrom] using hwb
    subst ho
    exact ⟨rfl, rfl, hInv⟩
  | cons e es ih =>
    simp only [wbFrom, Bool.and_eq_true] at hwb
    obtain ⟨h1, h2, h3⟩ := stepB_scan inOpen s e hInv hwb.1
    obtain ⟨g1, g2, g3⟩ := ih (wbNext inOpen e) (stepB s e).2 h3 hwb.2
    refine ⟨?_, ?_, g3⟩
    · simp only [runB]
      rw [scanOkB_append, h1, h2, g1]
      rfl
    · simp only [runB]
      rw [tkDepth_append, h2, g2]

theorem closeIfOpen_syn_count (s : BState) :
    (closeIfOpen s).1.countP isSynStartEv = 0 := by
  cases hT : s.thinkingTextOpen <;> cases hS : s.syntheticOpen <;>
    simp [closeIfOpen, emitThinkingEndIfOpen, hT, hS, isSynStartEv]

theorem closeIfSynthetic_syn_count (s : BState) :
    (closeIfSynthetic s).1.countP isSynStartEv = 0 := by
  cases hT : s.thinkingTextOpen <;> cases hS : s.syntheticOpen <;>
    simp [closeIfSynthetic, emitThinkingEndIfOpen, hT, hS, isSynStartEv]

theorem stepB_syn_count (s : BState) (e : AgentEvent) :
    (stepB s e).1.countP isSynStartEv = 0 := by
  cases e <;> simp only [stepB] <;> repeat' split
  all_goals
    simp [List.countP_append, closeIfOpen_syn_count, closeIfSynthetic_syn_count,
      isSynStartEv]

theorem runB_syn_count (evs : List AgentEvent) (s : BState) :
    (runB s evs).1.countP isSynStartEv = 0 := by
  induction evs generalizing s with
  | nil => rfl
  | cons e es ih =>
    simp only [runB]
    rw [List.countP_append, stepB_syn_count, ih]

/-- C3: on well-bracketed input, Translator B output satisfies the span
discipline `scanStepOk` throughout: at most one thinking span is open at
any point (`THINKING_START` only at depth 0, `THINKING_END` only at depth
1), and every `TEXT_MESSAGE_CONTENT`, `TOOL_CALL_START` and the final
`TEXT_MESSAGE_END` occur with every previously opened span closed.
Moreover exactly one synthetic thinking span is ever opened, it sits at
index 2 (immediately after `RUN_STARTED`/`TEXT_MESSAGE_START`, before any
real event), and every real `THINKING_START` comes strictly after it. -/
theorem C3_thinking_span_discipline (evs : List AgentEvent)
    (hwb : wellBracketed evs = true) :
    scanOkB 0 (translateB evs none) = true
    ∧ (translateB evs none).countP isSynStartEv = 1
    ∧ (∀ (i : Nat) (t : Option String),
        (translateB evs none)[i]? = some (OutEvent.thinkingStart true t) →
          i = 2)
    ∧ (∀ (j : Nat) (t : Option String),
        (translateB evs none)[j]? = some (OutEvent.thinkingStart false t) →
          2 < j) := by
  have hInv0 : BInv false (emitSyntheticThinkingStart initB).2 := by
    constructor
    · intro h
      cases h
    · intro _
      rfl
  obtain ⟨g1, g2, g3⟩ :=
    runB_scan evs false (emitSyntheticThinkingStart initB).2 hInv0 hwb
  have hfull : translateB evs none =
      OutEvent.runStarted :: OutEvent.textMessageStart ::
      OutEvent.thinkingStart true (some "Reasoning") ::
      OutEvent.thinkingTextStart ::
      OutEvent.thinkingTextContent
        "Analyzing your request and planning tool usage..." ::
      ((runB (emitSyntheticThinkingStart initB).2 evs).1 ++
        ((closeIfOpen
            (runB (emitSyntheticThinkingStart initB).2 evs).2).1 ++
          [OutEvent.textMessageEnd, OutEvent.runFinished])) := by
    simp [translateB, emitSyntheticThinkingStart, initB]
  have hd0 : depthOf false (emitSyntheticThinkingStart initB).2 = 1 := rfl
  have hrest0 :
      ((runB (emitSyntheticThinkingStart initB).2 evs).1 ++
        ((closeIfOpen
            (runB (emitSyntheticThinkingStart initB).2 evs).2).1 ++
          [OutEvent.textMessageEnd, OutEvent.runFinished])).countP
        isSynStartEv = 0 := by
    rw [List.countP_append, List.countP_append, runB_syn_count,
      closeIfOpen_syn_count]
    rfl
  refine ⟨?_, ?_, ?_, ?_⟩
  · rw [hfull]
    simp only [scanOkB, scanStepOk, tkNext]
    rw [scanOkB_append]
    rw [hd0] at g1 g2
    rw [g1, g2]
    have hclose : scanOkB
        (depthOf false (runB (emitSyntheticThinkingStart initB).2 evs).2)
        ((closeIfOpen
            (runB (emitSyntheticThinkingStart initB).2 evs).2).1 ++
          [OutEvent.textMessageEnd, OutEvent.runFinished]) = true := by
      have hTS := g3.2 rfl
      cases hS : (runB (emitSyntheticThinkingStart initB).2 evs).2.syntheticOpen
        with
      | true =>
        have hT := hTS.trans hS
        simp [closeIfOpen, emitThinkingEndIfOpen, hS, hT, depthOf, scanOkB,
          scanStepOk, tkNext]
      | false =>
        have hT := hTS.trans hS
        simp [closeIfOpen, emitThinkingEndIfOpen, hS, hT, depthOf, scanOkB,
          scanStepOk, tkNext]
    rw [hclose]
    rfl
  · rw [hfull]
    simp only [List.countP_cons, hrest0, isSynStartEv]
    rfl
  · intro i t h
    rw [hfull] at h
    rcases i with _ | _ | _ | _ | _ | i
    · simp at h
    · simp at h
    · rfl
    · simp at h
    · simp at h
    · simp only [List.getElem?_cons_succ] at h
      have hm : OutEvent.thinkingStart true t ∈
          ((runB (emitSyntheticThinkingStart initB).2 evs).1 ++
            ((closeIfOpen
                (runB (emitSyntheticThinkingStart initB).2 evs).2).1 ++
              [OutEvent.textMessageEnd, OutEvent.runFinished])) :=
        List.getElem?_mem h
      have := List.countP_eq_zero.mp hrest0 _ hm
      simp [isSynStartEv] at this
  · intro j t h
    rw [hfull] at h
    rcases j with _ | _ | _ | _ | _ | j
    · simp at h
    · simp at h
    · simp at h
    · simp at h
    · simp at h
    · omega

theorem C3_thinking_span_discipline_witness :
    scanOkB 0 (translateB
      [AgentEvent.thinkingStart (some "Plan"), AgentEvent.thinking "x",
       AgentEvent.thinkingEnd, AgentEvent.token "hi",
       AgentEvent.toolStart "esp" "i" none,
       AgentEvent.toolEnd "esp" "o" none] none) = true :=
  (C3_thinking_span_discipline
    [AgentEvent.thinkingStart (some "Plan"), AgentEvent.thinking "x",
     AgentEvent.thinkingEnd, AgentEvent.token "hi",
     AgentEvent.toolStart "esp" "i" none,
     AgentEvent.toolEnd "esp" "o" none] (by decide)).1
